import Mathlib

/-
  Verification development for the GeoLayers guessing game
  (`geolayers-game/public/main.v20250901.js`).

  The JavaScript source is shallowly embedded in Lean:
  * strings are Lean `String`s, with JS `trim` / `toLowerCase` / `toUpperCase`
    embedded as character-list operations (`jsTrim`, `jsToLower`, `jsToUpper`);
  * JS `Set` objects are embedded as duplicate-free insertion-ordered lists
    (`addSet` models `Set.prototype.add`);
  * `Math.random()` draws are embedded as an explicit draw sequence
    `rand : Nat → Nat`, reduced modulo the candidate-list length exactly as
    `Math.floor(Math.random()*list.length)` produces an index in range;
  * the DOM / Leaflet effects are reduced to the state they drive: the set of
    currently visible vector layers (`LayerSet`), the game flags, and the
    pending-rotation-timer count.
-/

namespace GeoLayers

/-- JS `String.prototype.toLowerCase`, embedded as ASCII case folding over the
character list (the country codes and names handled by the game are ASCII). -/
def jsToLower (s : String) : String :=
  String.mk (s.data.map Char.toLower)

/-- JS `String.prototype.toUpperCase`, embedded as ASCII case folding over the
character list. -/
def jsToUpper (s : String) : String :=
  String.mk (s.data.map Char.toUpper)

/-- JS `String.prototype.trim`: strip leading and trailing whitespace. -/
def jsTrim (s : String) : String :=
  String.mk ((s.data.dropWhile Char.isWhitespace).reverse.dropWhile Char.isWhitespace).reverse

/-- One record of `countries.json`: a short code and a display name. -/
structure Country where
  code : String
  name : String
deriving DecidableEq, Repr

/-- `codeSet.has(n)` where `codeSet` collects `c.code.toLowerCase()` for every
country `c` (main.v20250901.js lines 208-215). -/
def codeSetHas (data : List Country) (n : String) : Bool :=
  data.any (fun c => jsToLower c.code == n)

/-- `codeByName.get(n)` where `codeByName` maps `c.name.toLowerCase()` to
`c.code`; a later entry with the same lowercased name overwrites an earlier
one, exactly like repeated `Map.set` calls. -/
def codeByName (data : List Country) (n : String) : Option String :=
  data.foldl (fun acc c => if jsToLower c.name == n then some c.code else acc) none

/-- `normalizeGuess` (line 228): `String(v||'').trim().toLowerCase()`. -/
def normalizeGuess (v : String) : String :=
  jsToLower (jsTrim v)

/-- `resolveGuess` (lines 229-235). -/
def resolveGuess (data : List Country) (val : String) : String :=
  let n := normalizeGuess val
  if n = "" then ""
  else if codeSetHas data n then jsToUpper n
  else (codeByName data n).getD ""

/-- One boolean per named vector layer; used both for "this layer handle is
non-null" and for "this layer is currently on the map". -/
structure LayerSet where
  rivers : Bool
  cities : Bool
  topo : Bool
  roads : Bool
  outline : Bool
deriving DecidableEq, Repr

/-- All five layer handles present / all five layers visible. -/
def LayerSet.allOn : LayerSet :=
  ⟨true, true, true, true, true⟩

/-- `a` is a subset of `b`: every layer visible in `a` is visible in `b`. -/
def LayerSet.Sub (a b : LayerSet) : Prop :=
  (a.rivers = true → b.rivers = true) ∧
  (a.cities = true → b.cities = true) ∧
  (a.topo = true → b.topo = true) ∧
  (a.roads = true → b.roads = true) ∧
  (a.outline = true → b.outline = true)

/-- `const MAX_ROUNDS = 4` (line 52). -/
def MAX_ROUNDS : Nat := 4

/-- `applyRoundLayers` (lines 288-299): all five layers are removed, then
rivers is re-added whenever its handle is non-null, cities from round 2,
elevation (`topoLayer`) from round 3, roads and the outline from round 4.
`present` records which layer handles are non-null. -/
def applyRoundLayers (present : LayerSet) (round : Nat) : LayerSet :=
  { rivers := present.rivers
    cities := present.cities && decide (2 ≤ round)
    topo := present.topo && decide (3 ≤ round)
    roads := present.roads && decide (4 ≤ round)
    outline := present.outline && decide (4 ≤ round) }

/-- Session-fixed configuration: the loaded country table, the admin flag and
which layer handles were successfully constructed for the current country. -/
structure Config where
  data : List Country
  adminMode : Bool
  present : LayerSet
deriving Repr

/-- The mutable game state of main.v20250901.js: `locationId`, `round`,
`finished`, `triedSet`, `guessedSet` and the set of layers on the map. -/
structure GameState where
  locationId : String
  round : Nat
  finished : Bool
  tried : List String
  guessed : List String
  visible : LayerSet
deriving DecidableEq, Repr

/-- JS `Set.prototype.add`: append if not already a member. -/
def addSet (l : List String) (x : String) : List String :=
  if l.contains x then l else l ++ [x]

/-- `handleGuess` (lines 236-268), as a transition on the game state. The
guess box text is passed as `typed`; clearing the box and the score text are
not part of the game state. `outline.addTo(map)` in the two terminal branches
makes the outline visible on top of whatever is already shown. -/
def handleGuess (cfg : Config) (s : GameState) (typed : String) : GameState :=
  if cfg.adminMode then s
  else if s.finished then s
  else
    let code := resolveGuess cfg.data typed
    if code = "" then s
    else if code = s.locationId then
      { s with finished := true
               guessed := addSet s.guessed code
               visible := { s.visible with outline := true } }
    else if s.round < MAX_ROUNDS then
      { s with tried := addSet s.tried code
               round := s.round + 1
               visible := applyRoundLayers cfg.present (s.round + 1) }
    else
      { s with tried := addSet s.tried code
               finished := true
               guessed := addSet s.guessed s.locationId
               visible := { s.visible with outline := true } }

/-- The `i`-th candidate draw of `rotateCountry` (line 321):
`list[Math.floor(Math.random()*list.length)]`, with the random draw embedded
as `rand i` reduced modulo the list length. -/
def rotateDraw (list : List String) (rand : Nat → Nat) (i : Nat) : String :=
  list.getD (rand i % list.length) ""

/-- The retry loop of `rotateCountry` (lines 319-323): up to 10 draws, stopping
at the first draw different from the current location; if all 10 collide the
current location is kept. -/
def rotateLoop (list : List String) (rand : Nat → Nat) (current : String) (i : Nat) : String :=
  if h10 : i < 10 then
    if rotateDraw list rand i ≠ current then rotateDraw list rand i
    else rotateLoop list rand current (i + 1)
  else current
termination_by 10 - i

/-- `rotateCountry` (lines 316-332) as a transition on the game state: pick the
next location, clear `finished`, reset `round` to 1 and empty `triedSet`.
(The early return covers the empty candidate list; the asynchronous
`loadCountry()` that rebuilds the layers is not part of this transition.) -/
def rotateCountry (list : List String) (rand : Nat → Nat) (s : GameState) : GameState :=
  if list.length = 0 then s
  else
    { s with locationId := rotateLoop list rand s.locationId 0
             finished := false
             round := 1
             tried := [] }

/-- Game state plus the number of pending rotation timers
(`rotateTimeout`, line 56: at most one handle exists in the source; the count
lets the uniqueness claim be stated rather than assumed). -/
structure SysState where
  game : GameState
  pendingRotation : Nat
deriving Repr

/-- `scheduleRotation` (lines 334-338): any pending rotation timer is cleared
(`clearInterval` / `clearTimeout`) and then exactly one new timeout is set. -/
def scheduleRotation (sys : SysState) : SysState :=
  { sys with pendingRotation := 1 }

/-- A pending rotation timeout fires: the timer is consumed and
`rotateCountry` runs. `rotateCountry` itself never touches the timer state. -/
def fireRotation (list : List String) (rand : Nat → Nat) (sys : SysState) : SysState :=
  if sys.pendingRotation = 0 then sys
  else { game := rotateCountry list rand sys.game
         pendingRotation := sys.pendingRotation - 1 }

/-- The events of the page that can touch the rotation timer or the game
state: scheduling the rotation timer, the timer firing, and a guess
submission. (In main.v20250901.js no other code path schedules or clears the
timer while the page is alive.) -/
inductive SysStep (cfg : Config) (list : List String) (rand : Nat → Nat) :
    SysState → SysState → Prop
  | schedule (sys : SysState) : SysStep cfg list rand sys (scheduleRotation sys)
  | fire (sys : SysState) : SysStep cfg list rand sys (fireRotation list rand sys)
  | guessEvent (sys : SysState) (typed : String) :
      SysStep cfg list rand sys { sys with game := handleGuess cfg sys.game typed }

/-- A road feature of the roads FeatureCollection: its `properties.highway`
tag (the empty string when absent, as produced by `String(x||'')`) and a
payload identifier standing for the rest of the feature. -/
structure Road where
  highway : String
  fid : Nat
deriving DecidableEq, Repr

/-- `prioOrder` (line 163). -/
def prioOrder : List String :=
  ["motorway", "trunk", "primary", "secondary", "tertiary", "unclassified",
   "residential", "service", "track", "path", "road"]

/-- The bin key of a feature (lines 169-170): its lowercased highway tag when
that is a known priority class, otherwise the catch-all bin. -/
def roadKey (f : Road) : String :=
  if prioOrder.contains (jsToLower f.highway) then jsToLower f.highway else "__other__"

/-- The bin for key `k` (lines 164-172): the features whose key is `k`, in
input order (the single `push` pass builds exactly this filter). -/
def binFor (feats : List Road) (k : String) : List Road :=
  feats.filter (fun f => roadKey f == k)

/-- Even stride sampling of an overflowing bin (lines 183-188):
`step = arr.length / remaining` and element `Math.floor(i * step)` for
`i < remaining`; over the rationals `Math.floor(i * (len/rem))` is exactly
`i * len / rem` in natural division. -/
def evenSample (arr : List Road) (rem : Nat) : List Road :=
  (List.range rem).map (fun i => arr.getD (i * arr.length / rem) ⟨"", 0⟩)

/-- The bin keys in fill order (line 175): `prioOrder.concat(['__other__'])`. -/
def allRoadKeys : List String :=
  prioOrder ++ ["__other__"]

/-- The fill loop of `limitRoads` (lines 174-190), with `rem` the remaining
budget `max - out.length`: stop when the budget is exhausted, copy a bin that
fits, stride-sample the bin that does not (after which the budget is zero and
the loop breaks). -/
def fillBins (feats : List Road) : List String → Nat → List Road
  | [], _ => []
  | k :: ks, rem =>
    if rem = 0 then []
    else
      let arr := binFor feats k
      if arr.length ≤ rem then arr ++ fillBins feats ks (rem - arr.length)
      else evenSample arr rem

/-- `limitRoads` (lines 157-193) on the feature list of the FeatureCollection:
unchanged when within the cap, otherwise filled bin by bin in priority order. -/
def limitRoads (feats : List Road) (maxN : Nat) : List Road :=
  if feats.length ≤ maxN then feats else fillBins feats allRoadKeys maxN

/-- The features contributed by the first `k` bins of `keys`, in fill order. -/
def binsTaken (feats : List Road) (keys : List String) (k : Nat) : List Road :=
  ((keys.take k).map (binFor feats)).flatten

/-- A JavaScript value, as far as the geometry sanitizer can observe it:
`null`, `undefined`, booleans, finite numbers (exact rationals), `NaN`
(falsy, non-finite), `±Infinity` (truthy, non-finite), strings, arrays and
objects (association lists of fields). -/
inductive Js where
  | null : Js
  | undef : Js
  | bool : Bool → Js
  | num : Rat → Js
  | nan : Js
  | inf : Bool → Js
  | str : String → Js
  | arr : List Js → Js
  | obj : List (String × Js) → Js

/-- JS truthiness: `null`, `undefined`, `false`, `0`, `NaN` and `''` are
falsy; every other value (including `±Infinity`, arrays and objects) is
truthy. -/
def Js.isTruthy : Js → Bool
  | Js.null => false
  | Js.undef => false
  | Js.bool b => b
  | Js.num q => q != 0
  | Js.nan => false
  | Js.inf _ => true
  | Js.str s => s != ""
  | Js.arr _ => true
  | Js.obj _ => true

/-- JS property access `v[k]`: a field of an object, `undefined` otherwise
(the sanitizer only reads properties of values already known truthy, so the
`null.k` TypeError never arises on the paths embedded here). -/
def Js.get : Js → String → Js
  | Js.obj fs, k =>
    match fs.lookup k with
    | some v => v
    | none => Js.undef
  | _, _ => Js.undef

/-- `Array.isArray(c) ? c : []`. -/
def Js.asArr : Js → List Js
  | Js.arr l => l
  | _ => []

/-- JS strict equality `v === "s"` against a string literal. -/
def Js.eqStr : Js → String → Bool
  | Js.str s, t => s == t
  | _, _ => false

/-- `isFiniteNum` (line 60): `typeof n === 'number' && isFinite(n)`. -/
def Js.isFiniteNum : Js → Bool
  | Js.num _ => true
  | _ => false

/-- `coordValid` (line 61): `Array.isArray(c) && isFiniteNum(c[0]) &&
isFiniteNum(c[1])`; out-of-range indexing yields `undefined`. -/
def coordValid (c : Js) : Bool :=
  match c with
  | Js.arr l => (l.getD 0 Js.undef).isFiniteNum && (l.getD 1 Js.undef).isFiniteNum
  | _ => false

/-- JS `a && b`. -/
def jsAnd (a b : Js) : Js :=
  if a.isTruthy then b else a

/-- JS `a || b`. -/
def jsOr (a b : Js) : Js :=
  if a.isTruthy then a else b

theorem Js.sizeOf_lookup_lt {fs : List (String × Js)} {k : String} {v : Js}
    (h : fs.lookup k = some v) : sizeOf v < sizeOf (Js.obj fs) := by
  induction fs with
  | nil => simp [List.lookup] at h
  | cons a t ih =>
    obtain ⟨ka, va⟩ := a
    rw [List.lookup] at h
    by_cases hk : (k == ka) = true
    · rw [hk] at h
      simp only [Option.some.injEq] at h
      subst h
      simp only [Js.obj.sizeOf_spec, List.cons.sizeOf_spec, Prod.mk.sizeOf_spec]
      omega
    · rw [Bool.not_eq_true] at hk
      rw [hk] at h
      have := ih h
      simp only [Js.obj.sizeOf_spec, List.cons.sizeOf_spec, Prod.mk.sizeOf_spec] at *
      omega

theorem Js.sizeOf_get_le (g : Js) (k : String) : sizeOf (Js.get g k) ≤ sizeOf g := by
  cases g
  case obj fs =>
    simp only [Js.get]
    cases h : fs.lookup k
    · simp_arith
    · exact Nat.le_of_lt (Js.sizeOf_lookup_lt h)
  all_goals simp_arith [Js.get]

theorem Js.sizeOf_mem_asArr_lt {x v : Js} (h : x ∈ v.asArr) : sizeOf x < sizeOf v := by
  cases v
  case arr l =>
    simp only [Js.asArr] at h
    have := List.sizeOf_lt_of_mem h
    simp only [Js.arr.sizeOf_spec]
    omega
  all_goals simp [Js.asArr] at h

theorem Js.sizeOf_get_asArr_lt {g x : Js} {k : String}
    (hx : x ∈ (Js.get g k).asArr) : sizeOf x < sizeOf g :=
  Nat.lt_of_lt_of_le (Js.sizeOf_mem_asArr_lt hx) (Js.sizeOf_get_le g k)

/-- `pruneGeometry` (lines 104-136), transcribed branch by branch. The JS
`return null` paths become `Js.null`; the truthiness test `pts.length ? _ : _`
is `length ≠ 0`. -/
def pruneGeometry (geom : Js) : Js :=
  if !geom.isTruthy then Js.null
  else
    let t := geom.get "type"
    if !t.isTruthy then Js.null
    else if t.eqStr "Point" then
      if coordValid (geom.get "coordinates") then geom else Js.null
    else if t.eqStr "MultiPoint" then
      let pts := (geom.get "coordinates").asArr.filter coordValid
      if pts.length ≠ 0 then
        Js.obj [("type", Js.str "MultiPoint"), ("coordinates", Js.arr pts)]
      else Js.null
    else if t.eqStr "LineString" then
      let ls := (geom.get "coordinates").asArr.filter coordValid
      if 2 ≤ ls.length then
        Js.obj [("type", Js.str "LineString"), ("coordinates", Js.arr ls)]
      else Js.null
    else if t.eqStr "MultiLineString" then
      let mls := ((geom.get "coordinates").asArr.map
          (fun ls => ls.asArr.filter coordValid)).filter (fun ls => decide (2 ≤ ls.length))
      if mls.length ≠ 0 then
        Js.obj [("type", Js.str "MultiLineString"), ("coordinates", Js.arr (mls.map Js.arr))]
      else Js.null
    else if t.eqStr "Polygon" then
      let poly := ((geom.get "coordinates").asArr.map
          (fun ring => ring.asArr.filter coordValid)).filter (fun ring => decide (4 ≤ ring.length))
      if poly.length ≠ 0 then
        Js.obj [("type", Js.str "Polygon"), ("coordinates", Js.arr (poly.map Js.arr))]
      else Js.null
    else if t.eqStr "MultiPolygon" then
      let mp := ((geom.get "coordinates").asArr.map
          (fun poly => (poly.asArr.map (fun ring => ring.asArr.filter coordValid)).filter
            (fun ring => decide (4 ≤ ring.length)))).filter
          (fun poly => decide (poly.length ≠ 0))
      if mp.length ≠ 0 then
        Js.obj [("type", Js.str "MultiPolygon"),
                ("coordinates", Js.arr (mp.map (fun poly => Js.arr (poly.map Js.arr))))]
      else Js.null
    else if t.eqStr "GeometryCollection" then
      let geoms := ((geom.get "geometries").asArr.attach.map
          (fun x => pruneGeometry x.val)).filter Js.isTruthy
      if geoms.length ≠ 0 then
        Js.obj [("type", Js.str "GeometryCollection"), ("geometries", Js.arr geoms)]
      else Js.null
    else Js.null
termination_by sizeOf geom
decreasing_by
  exact Js.sizeOf_get_asArr_lt x.property

/-- The mapped function of the FeatureCollection branch of `sanitizeGeoJSON`
(lines 141-145). -/
def sanitizeFeature (f : Js) : Js :=
  let g := pruneGeometry (jsAnd f (f.get "geometry"))
  if !g.isTruthy then Js.null
  else
    Js.obj [("type", Js.str "Feature"), ("geometry", g),
            ("properties", jsOr (jsAnd f (f.get "properties")) (Js.obj []))]

/-- `sanitizeGeoJSON` (lines 138-154). The result is `none` exactly on the
one path where the JS code throws: a FeatureCollection whose `features` field
is truthy but not an array, so that `.map` is called on a non-array. -/
def sanitizeGeoJSON (fc : Js) : Option Js :=
  if !fc.isTruthy then some Js.null
  else if (fc.get "type").eqStr "FeatureCollection" then
    match jsOr (fc.get "features") (Js.arr []) with
    | Js.arr fs =>
      some (Js.obj [("type", Js.str "FeatureCollection"),
                    ("features", Js.arr ((fs.map sanitizeFeature).filter Js.isTruthy))])
    | _ => none
  else if (fc.get "type").eqStr "Feature" then
    let g := pruneGeometry (fc.get "geometry")
    if g.isTruthy then
      some (Js.obj [("type", Js.str "Feature"), ("geometry", g),
                    ("properties", jsOr (fc.get "properties") (Js.obj []))])
    else some Js.null
  else
    let g := pruneGeometry fc
    some (if g.isTruthy then g else Js.null)

/-- A line (or ring) as it may appear in sanitized output: an array of at
least `minLen` coordinate pairs, every one of them finite. -/
def lineOK (minLen : Nat) (l : Js) : Bool :=
  match l with
  | Js.arr pts => decide (minLen ≤ pts.length) && pts.all coordValid
  | _ => false

/-- A polygon coordinate array as it may appear in sanitized output: a
non-empty array of rings of at least 4 finite points each. -/
def ringsOK (p : Js) : Bool :=
  match p with
  | Js.arr rings => decide (rings.length ≠ 0) && rings.all (lineOK 4)
  | _ => false

/-- The claimed shape of a sanitized geometry: every coordinate pair finite,
every line at least 2 points, every ring at least 4 points, and no empty
sub-structures (pruned-away members are absent). -/
def prunedWF (g : Js) : Bool :=
  let t := g.get "type"
  if t.eqStr "Point" then coordValid (g.get "coordinates")
  else if t.eqStr "MultiPoint" then
    match g.get "coordinates" with
    | Js.arr pts => decide (pts.length ≠ 0) && pts.all coordValid
    | _ => false
  else if t.eqStr "LineString" then lineOK 2 (g.get "coordinates")
  else if t.eqStr "MultiLineString" then
    match g.get "coordinates" with
    | Js.arr ls => decide (ls.length ≠ 0) && ls.all (lineOK 2)
    | _ => false
  else if t.eqStr "Polygon" then ringsOK (g.get "coordinates")
  else if t.eqStr "MultiPolygon" then
    match g.get "coordinates" with
    | Js.arr ps => decide (ps.length ≠ 0) && ps.all ringsOK
    | _ => false
  else if t.eqStr "GeometryCollection" then
    match hg : g.get "geometries" with
    | Js.arr gs => decide (gs.length ≠ 0) && gs.attach.all (fun x => prunedWF x.val)
    | _ => false
  else false
termination_by sizeOf g
decreasing_by
  have := Js.sizeOf_mem_asArr_lt (v := Js.arr gs) (by simpa [Js.asArr] using x.property)
  have hle := Js.sizeOf_get_le g "geometries"
  rw [hg] at hle
  omega

/-- A sanitized Feature: the `Feature` tag with a well-formed geometry. -/
def featureWF (f : Js) : Bool :=
  (f.get "type").eqStr "Feature" && prunedWF (f.get "geometry")

/-- The claimed shape of any non-null `sanitizeGeoJSON` output: a
FeatureCollection of well-formed features (possibly empty when nothing valid
remains), a well-formed Feature, or a well-formed bare geometry. -/
def sanitizedWF (r : Js) : Bool :=
  if (r.get "type").eqStr "FeatureCollection" then
    match r.get "features" with
    | Js.arr fs => fs.all featureWF
    | _ => false
  else if (r.get "type").eqStr "Feature" then featureWF r
  else prunedWF r

/-- The canonical form of `pruneGeometry` output: on the `Point` branch the
input object is returned as is (any extra fields survive); every other branch
rebuilds an object with exactly its `type` tag and its payload field, with
all invalid members filtered out. -/
def isPruned (g : Js) : Bool :=
  match g with
  | Js.obj fs =>
    if ((Js.obj fs).get "type").eqStr "Point" then coordValid ((Js.obj fs).get "coordinates")
    else
      match fs with
      | [("type", Js.str t), ("coordinates", c)] =>
        if t = "MultiPoint" then
          match c with
          | Js.arr pts => decide (pts.length ≠ 0) && pts.all coordValid
          | _ => false
        else if t = "LineString" then lineOK 2 c
        else if t = "MultiLineString" then
          match c with
          | Js.arr ls => decide (ls.length ≠ 0) && ls.all (lineOK 2)
          | _ => false
        else if t = "Polygon" then ringsOK c
        else if t = "MultiPolygon" then
          match c with
          | Js.arr ps => decide (ps.length ≠ 0) && ps.all ringsOK
          | _ => false
        else false
      | [("type", Js.str "GeometryCollection"), ("geometries", Js.arr gs)] =>
        decide (gs.length ≠ 0) && gs.attach.all (fun x => isPruned x.val)
      | _ => false
  | _ => false
termination_by sizeOf g
decreasing_by
  have := List.sizeOf_lt_of_mem x.property
  simp only [Js.obj.sizeOf_spec, Js.arr.sizeOf_spec, List.cons.sizeOf_spec,
    Prod.mk.sizeOf_spec, List.nil.sizeOf_spec] at *
  omega

/-- A concrete GeoJSON geometry used by witnesses: a LineString with one
non-finite coordinate pair. -/
def sampleGeo : Js :=
  Js.obj [("type", Js.str "LineString"),
    ("coordinates", Js.arr [Js.arr [Js.num 0, Js.num 1], Js.arr [Js.num 2, Js.nan],
      Js.arr [Js.num 3, Js.num 4]])]

/-- The sanitized form of `sampleGeo`: the non-finite point is gone. -/
def sampleSanitized : Js :=
  Js.obj [("type", Js.str "LineString"),
    ("coordinates", Js.arr [Js.arr [Js.num 0, Js.num 1], Js.arr [Js.num 3, Js.num 4]])]

/-- A concrete country table used by witnesses. -/
def sampleCountries : List Country :=
  [⟨"BRA", "Brazil"⟩, ⟨"CAN", "Canada"⟩]

/-- A concrete interactive (non-admin) configuration used by witnesses. -/
def sampleConfig : Config :=
  ⟨sampleCountries, false, LayerSet.allOn⟩

/-- A concrete round-1 game state used by witnesses. -/
def sampleState : GameState :=
  ⟨"CAN", 1, false, [], [], applyRoundLayers LayerSet.allOn 1⟩

end GeoLayers

namespace GeoLayers

theorem list_map_eq_self {α : Type} {f : α → α} :
    ∀ {l : List α}, l.map f = l → ∀ x ∈ l, f x = x := by
  intro l
  induction l with
  | nil => intro _ x hx; cases hx
  | cons a t ih =>
    intro h x hx
    simp only [List.map_cons, List.cons.injEq] at h
    rw [List.mem_cons] at hx
    rcases hx with hx | hx
    · subst hx; exact h.1
    · exact ih h.2 x hx

theorem charIsLower_toNat {ch : Char} (h : ch.isLower = true) :
    97 ≤ ch.toNat ∧ ch.toNat ≤ 122 := by
  simp only [Char.isLower, Bool.and_eq_true, decide_eq_true_eq] at h
  obtain ⟨h1, h2⟩ := h
  exact ⟨UInt32.le_toNat_of_le (by decide) h1, UInt32.toNat_le_of_le (by decide) h2⟩

theorem charToLower_of_isLower {ch : Char} (h : ch.isLower = true) : ch.toLower = ch := by
  have hn := charIsLower_toNat h
  rw [Char.toLower, if_neg (by omega)]

theorem char_toNat_ofNat_valid {n : Nat} (h : n.isValidChar) : (Char.ofNat n).toNat = n := by
  rw [Char.ofNat, dif_pos h]
  rfl

theorem charToUpper_ne_of_isLower {ch : Char} (h : ch.isLower = true) : ch.toUpper ≠ ch := by
  have hn := charIsLower_toNat h
  intro heq
  have hts : (Char.toUpper ch).toNat = ch.toNat := by rw [heq]
  rw [Char.toUpper, if_pos (by omega)] at hts
  rw [char_toNat_ofNat_valid (Or.inl (by omega))] at hts
  omega

/-- Claim C1: for every guess that resolves to a known identifier, submitted
in interactive mode with the game not finished: a correct guess finishes the
game with the identifier added to the solved set and the outline shown; a
wrong guess at round `MAX_ROUNDS` finishes the game with the target added to
the solved set and the outline shown; a wrong guess below `MAX_ROUNDS`
increments the round by exactly 1 and leaves the game unfinished; and a
finished game absorbs every further guess until a rotation resets it. -/
theorem C1_handleGuess_transitions (cfg : Config) (s : GameState) (typed : String)
    (hadmin : cfg.adminMode = false) (hfin : s.finished = false)
    (hres : resolveGuess cfg.data typed ≠ "") :
    (resolveGuess cfg.data typed = s.locationId →
      handleGuess cfg s typed =
        { s with finished := true
                 guessed := addSet s.guessed (resolveGuess cfg.data typed)
                 visible := { s.visible with outline := true } }) ∧
    (resolveGuess cfg.data typed ≠ s.locationId → s.round = MAX_ROUNDS →
      handleGuess cfg s typed =
        { s with tried := addSet s.tried (resolveGuess cfg.data typed)
                 finished := true
                 guessed := addSet s.guessed s.locationId
                 visible := { s.visible with outline := true } }) ∧
    (resolveGuess cfg.data typed ≠ s.locationId → s.round < MAX_ROUNDS →
      handleGuess cfg s typed =
        { s with tried := addSet s.tried (resolveGuess cfg.data typed)
                 round := s.round + 1
                 visible := applyRoundLayers cfg.present (s.round + 1) } ∧
      (handleGuess cfg s typed).finished = false) ∧
    (∀ (s2 : GameState) (t2 : String), s2.finished = true →
      handleGuess cfg s2 t2 = s2) := by
  refine ⟨?_, ?_, ?_, ?_⟩
  · intro heq
    have hres2 : s.locationId ≠ "" := heq ▸ hres
    simp [handleGuess, hadmin, hfin, heq, hres2]
  · intro hne h4
    simp [handleGuess, hadmin, hfin, hres, hne, h4, MAX_ROUNDS]
  · intro hne hlt
    constructor
    · simp [handleGuess, hadmin, hfin, hres, hne, hlt]
    · simp [handleGuess, hadmin, hfin, hres, hne, hlt]
  · intro s2 t2 hf2
    cases hA : cfg.adminMode <;> simp [handleGuess, hA, hf2]

/-- Witness for C1: a correct guess for the sample target finishes the game,
records it as solved and shows the outline. -/
theorem C1_witness :
    handleGuess sampleConfig sampleState "canada" =
      { sampleState with finished := true
                         guessed := ["CAN"]
                         visible := { sampleState.visible with outline := true } } :=
  (C1_handleGuess_transitions sampleConfig sampleState "canada" rfl rfl
    (by decide)).1 (by decide)

/-- Claim C2: the round-reveal policy is additive: for `1 ≤ k < MAX_ROUNDS`
the visible-layer set at round `k` is a subset of the one at round `k + 1`,
and concretely round 1 shows rivers, round 2 adds cities, round 3 adds
elevation, round 4 adds roads and the outline. -/
theorem C2_roundLayers_monotone :
    (∀ (present : LayerSet) (k : Nat), 1 ≤ k → k < MAX_ROUNDS →
        LayerSet.Sub (applyRoundLayers present k) (applyRoundLayers present (k + 1))) ∧
    applyRoundLayers LayerSet.allOn 1 = ⟨true, false, false, false, false⟩ ∧
    applyRoundLayers LayerSet.allOn 2 = ⟨true, true, false, false, false⟩ ∧
    applyRoundLayers LayerSet.allOn 3 = ⟨true, true, true, false, false⟩ ∧
    applyRoundLayers LayerSet.allOn 4 = ⟨true, true, true, true, true⟩ := by
  refine ⟨?_, by decide, by decide, by decide, by decide⟩
  intro p k _h1 _h4
  refine ⟨?_, ?_, ?_, ?_, ?_⟩ <;>
    · intro h
      simp only [applyRoundLayers, Bool.and_eq_true, decide_eq_true_eq] at h ⊢
      first
        | exact h
        | exact ⟨h.1, by omega⟩

/-- Witness for C2: the round-1 layer set is a subset of the round-2 one. -/
theorem C2_witness :
    LayerSet.Sub (applyRoundLayers LayerSet.allOn 1) (applyRoundLayers LayerSet.allOn 2) :=
  C2_roundLayers_monotone.1 LayerSet.allOn 1 (by decide) (by decide)

/-- Claim C5: `resolveGuess` depends only on the trimmed case-folded guess
text, a case-insensitive code match takes precedence (the result is then the
upper-cased normalized input), an empty normalized input resolves to empty,
and the spec's Brazil example holds. -/
theorem C5_resolve_normalization (data : List Country) :
    (∀ a b : String, normalizeGuess a = normalizeGuess b →
        resolveGuess data a = resolveGuess data b) ∧
    (∀ v : String, codeSetHas data (normalizeGuess v) = true →
        resolveGuess data v = jsToUpper (normalizeGuess v)) ∧
    (∀ v : String, normalizeGuess v = "" → resolveGuess data v = "") ∧
    resolveGuess [⟨"BRA", "Brazil"⟩] " BrAzIl " = "BRA" ∧
    resolveGuess [⟨"BRA", "Brazil"⟩] "brazil" = "BRA" ∧
    resolveGuess [⟨"BRA", "Brazil"⟩] "BRA" = "BRA" := by
  refine ⟨?_, ?_, ?_, by decide, by decide, by decide⟩
  · intro a b h
    simp only [resolveGuess, h]
  · intro v h
    by_cases he : normalizeGuess v = ""
    · simp [resolveGuess, he, jsToUpper, jsToLower]
    · simp [resolveGuess, he, h]
  · intro v h
    simp [resolveGuess, h]

/-- Witness for C5: two inputs differing only in case resolve identically. -/
theorem C5_witness :
    resolveGuess [] "A" = resolveGuess [] "a" :=
  (C5_resolve_normalization []).1 "A" "a" (by decide)

/-- Claim C10: when the normalized guess equals the lowercase form of a known
short code, `resolveGuess` returns the upper-cased normalized text (not the
stored code); hence if the stored code contains a lowercase letter, even an
exactly matching code guess never compares equal to that stored code. -/
theorem C10_code_guess_uppercased (data : List Country) (v : String) (c : Country)
    (hc : c ∈ data) (hv : normalizeGuess v = jsToLower c.code) :
    resolveGuess data v = jsToUpper (jsToLower c.code) ∧
    (∀ ch : Char, ch ∈ c.code.data → ch.isLower = true →
      resolveGuess data v ≠ c.code) := by
  have hmem : codeSetHas data (jsToLower c.code) = true := by
    simp only [codeSetHas, List.any_eq_true]
    exact ⟨c, hc, by simp⟩
  have h1 : resolveGuess data v = jsToUpper (jsToLower c.code) := by
    by_cases he : normalizeGuess v = ""
    · have hnil : c.code.data = [] := by
        have h0 : jsToLower c.code = "" := by rw [← hv, he]
        simpa [jsToLower, String.ext_iff] using h0
      simp [resolveGuess, he, jsToUpper, jsToLower, hnil]
    · have hne : jsToLower c.code ≠ "" := by rw [← hv]; exact he
      simp [resolveGuess, hv, hne, hmem]
  refine ⟨h1, ?_⟩
  intro ch hch hlow heq
  rw [h1] at heq
  have hdata : ((c.code.data.map Char.toLower).map Char.toUpper) = c.code.data := by
    have := congrArg String.data heq
    simpa [jsToUpper, jsToLower] using this
  rw [List.map_map] at hdata
  have := list_map_eq_self hdata ch hch
  simp only [Function.comp] at this
  rw [charToLower_of_isLower hlow] at this
  exact charToUpper_ne_of_isLower hlow this

/-- Witness for C10: with stored code `"Bra"`, the exactly matching guess
`"Bra"` does not resolve to the stored code. -/
theorem C10_witness :
    resolveGuess [⟨"Bra", "Brazil"⟩] "Bra" ≠ "Bra" :=
  (C10_code_guess_uppercased [⟨"Bra", "Brazil"⟩] "Bra" ⟨"Bra", "Brazil"⟩
    (by decide) (by decide)).2 'r' (by decide) (by decide)

/-- Claim C6 (amended): a guess that resolves to no known identifier is
silently ignored by `handleGuess`: the state is returned unchanged — nothing
is recorded in the tried set and no round transition happens. -/
theorem C6_unresolved_ignored (cfg : Config) (s : GameState) (typed : String)
    (hres : resolveGuess cfg.data typed = "") :
    handleGuess cfg s typed = s := by
  cases hA : cfg.adminMode <;> cases hF : s.finished <;> simp [handleGuess, hA, hF, hres]

/-- Witness for the amended C6: the unresolvable guess `"zzz"` leaves the
sample state untouched. -/
theorem C6_witness :
    handleGuess sampleConfig sampleState "zzz" = sampleState :=
  C6_unresolved_ignored sampleConfig sampleState "zzz" (by decide)

/-- Counterexample to C6 as stated: the non-empty unresolvable guess `"zzz"`
is not treated as a wrong guess — the round stays 1, the tried set stays
empty and the game does not end, contradicting the claimed wrong-guess
transition. -/
theorem C6_counterexample :
    normalizeGuess "zzz" ≠ "" ∧
    resolveGuess sampleCountries "zzz" = "" ∧
    handleGuess sampleConfig sampleState "zzz" = sampleState ∧
    (handleGuess sampleConfig sampleState "zzz").round = 1 ∧
    (handleGuess sampleConfig sampleState "zzz").tried = [] ∧
    (handleGuess sampleConfig sampleState "zzz").finished = false := by
  refine ⟨by decide, by decide, ?_, by decide, by decide, by decide⟩
  decide

theorem rotateLoop_all_eq (list : List String) (rand : Nat → Nat) (current : String)
    (i : Nat) (h : ∀ j, i ≤ j → j < 10 → rotateDraw list rand j = current) :
    rotateLoop list rand current i = current := by
  rw [rotateLoop]
  split
  · next h10 =>
    rw [if_neg (by simpa using h i (Nat.le_refl i) h10)]
    exact rotateLoop_all_eq list rand current (i + 1)
      (fun j hj hj10 => h j (by omega) hj10)
  · rfl
termination_by 10 - i

theorem rotateLoop_first_diff (list : List String) (rand : Nat → Nat) (current : String)
    (i k : Nat) (hik : i ≤ k) (hk : k < 10)
    (hdiff : rotateDraw list rand k ≠ current)
    (hbefore : ∀ j, i ≤ j → j < k → rotateDraw list rand j = current) :
    rotateLoop list rand current i = rotateDraw list rand k := by
  rw [rotateLoop]
  rw [dif_pos (by omega : i < 10)]
  by_cases hi : i = k
  · subst hi
    rw [if_pos hdiff]
  · rw [if_neg (by simpa using hbefore i (Nat.le_refl i) (by omega))]
    exact rotateLoop_first_diff list rand current (i + 1) k (by omega) hk hdiff
      (fun j hj hjk => hbefore j (by omega) hjk)
termination_by 10 - i

theorem rotateLoop_congr (list : List String) (rand rand2 : Nat → Nat) (current : String)
    (i : Nat) (h : ∀ j, i ≤ j → j < 10 → rand j = rand2 j) :
    rotateLoop list rand current i = rotateLoop list rand2 current i := by
  by_cases h10 : i < 10
  · rw [rotateLoop, dif_pos h10]
    conv_rhs => rw [rotateLoop]
    rw [dif_pos h10]
    have hd : rotateDraw list rand i = rotateDraw list rand2 i := by
      simp [rotateDraw, h i (Nat.le_refl i) h10]
    rw [hd]
    by_cases hdc : rotateDraw list rand2 i ≠ current
    · rw [if_pos hdc, if_pos hdc]
    · rw [if_neg hdc, if_neg hdc]
      exact rotateLoop_congr list rand rand2 current (i + 1)
        (fun j hj hj10 => h j (by omega) hj10)
  · rw [rotateLoop, dif_neg h10]
    rw [rotateLoop, dif_neg h10]
termination_by 10 - i

/-- Claim C7: on a non-empty candidate list, rotation resets the round to 1,
empties the tried set and clears the finished flag; it selects the first of
the bounded draws that differs from the excluded (current) identifier; if all
ten draws collide it accepts the repeat; and the outcome depends on at most
the first ten draws (the loop never runs longer). -/
theorem C7_rotation (list : List String) (rand : Nat → Nat) (s : GameState)
    (hne : list.length ≠ 0) :
    ((rotateCountry list rand s).round = 1 ∧
     (rotateCountry list rand s).tried = [] ∧
     (rotateCountry list rand s).finished = false) ∧
    ((∀ j, j < 10 → rotateDraw list rand j = s.locationId) →
      (rotateCountry list rand s).locationId = s.locationId) ∧
    (∀ k, k < 10 → rotateDraw list rand k ≠ s.locationId →
      (∀ j, j < k → rotateDraw list rand j = s.locationId) →
      (rotateCountry list rand s).locationId = rotateDraw list rand k) ∧
    (∀ rand2 : Nat → Nat, (∀ j, j < 10 → rand j = rand2 j) →
      rotateCountry list rand s = rotateCountry list rand2 s) := by
  refine ⟨?_, ?_, ?_, ?_⟩
  · simp [rotateCountry, hne]
  · intro hall
    simp only [rotateCountry, if_neg hne]
    exact rotateLoop_all_eq list rand s.locationId 0 (fun j _ hj10 => hall j hj10)
  · intro k hk hdiff hbefore
    simp only [rotateCountry, if_neg hne]
    exact rotateLoop_first_diff list rand s.locationId 0 k (Nat.zero_le k) hk hdiff
      (fun j _ hjk => hbefore j hjk)
  · intro rand2 h
    simp only [rotateCountry, if_neg hne]
    rw [rotateLoop_congr list rand rand2 s.locationId 0 (fun j _ hj10 => h j hj10)]

/-- Witness for C7: a concrete rotation resets the state and picks the first
differing draw. -/
theorem C7_witness :
    ((rotateCountry ["AAA", "BBB"] (fun _ => 1) sampleState).round = 1 ∧
     (rotateCountry ["AAA", "BBB"] (fun _ => 1) sampleState).tried = [] ∧
     (rotateCountry ["AAA", "BBB"] (fun _ => 1) sampleState).finished = false) ∧
    (rotateCountry ["AAA", "BBB"] (fun _ => 1) sampleState).locationId =
      rotateDraw ["AAA", "BBB"] (fun _ => 1) 0 :=
  ⟨(C7_rotation ["AAA", "BBB"] (fun _ => 1) sampleState (by decide)).1,
   (C7_rotation ["AAA", "BBB"] (fun _ => 1) sampleState (by decide)).2.2.1 0
     (by decide) (by decide) (fun j hj => absurd hj (by omega))⟩

/-- Claim C9 (amended): `scheduleRotation` clears any pending rotation timer
before scheduling, so at most one timer is ever pending across all events;
but a rotation does not restart the timer: firing consumes it, and with no
timer pending no further automatic rotation can happen. -/
theorem C9_timer_discipline (cfg : Config) (list : List String) (rand : Nat → Nat) :
    (∀ sys : SysState, (scheduleRotation sys).pendingRotation = 1) ∧
    (∀ sys sys2 : SysState, SysStep cfg list rand sys sys2 →
      sys.pendingRotation ≤ 1 → sys2.pendingRotation ≤ 1) ∧
    (∀ sys : SysState, (fireRotation list rand sys).pendingRotation =
      sys.pendingRotation - 1) ∧
    (∀ sys : SysState, sys.pendingRotation = 0 → fireRotation list rand sys = sys) := by
  refine ⟨fun sys => rfl, ?_, ?_, ?_⟩
  · intro sys sys2 hstep hle
    cases hstep with
    | schedule => simp [scheduleRotation]
    | fire =>
      simp only [fireRotation]
      split
      · exact hle
      · simp only []
        omega
    | guessEvent => exact hle
  · intro sys
    simp only [fireRotation]
    split
    · next h0 => simp [h0]
    · rfl
  · intro sys h0
    simp [fireRotation, h0]

/-- Witness for the amended C9: a fire step keeps the pending-timer count at
most one. -/
theorem C9_amended_witness :
    (fireRotation ["AAA"] (fun _ => 0)
        { game := sampleState, pendingRotation := 1 }).pendingRotation ≤ 1 :=
  (C9_timer_discipline sampleConfig ["AAA"] (fun _ => 0)).2.1
    { game := sampleState, pendingRotation := 1 }
    (fireRotation ["AAA"] (fun _ => 0) { game := sampleState, pendingRotation := 1 })
    (SysStep.fire { game := sampleState, pendingRotation := 1 }) (by decide)

/-- Counterexample to C9 as stated: after the scheduled rotation timer fires
(a rotation does happen: the game state is the rotated one), zero rotation
timers are pending — the rotation did not cancel-and-restart the timer, so
the game is not rotated again after the interval. -/
theorem C9_counterexample :
    (fireRotation ["AAA"] (fun _ => 0)
        (scheduleRotation { game := sampleState, pendingRotation := 0 })).game =
      rotateCountry ["AAA"] (fun _ => 0) sampleState ∧
    (fireRotation ["AAA"] (fun _ => 0)
        (scheduleRotation { game := sampleState, pendingRotation := 0 })).pendingRotation
      = 0 := by
  constructor
  · rfl
  · rfl

theorem evenSample_length (arr : List Road) (rem : Nat) :
    (evenSample arr rem).length = rem := by
  simp [evenSample]

theorem evenSample_subset {arr : List Road} {rem : Nat} (h : rem < arr.length) :
    ∀ f ∈ evenSample arr rem, f ∈ arr := by
  intro f hf
  simp only [evenSample, List.mem_map, List.mem_range] at hf
  obtain ⟨i, hi, heq⟩ := hf
  have hidx : i * arr.length / rem < arr.length := by
    rw [Nat.div_lt_iff_lt_mul (by omega : 0 < rem)]
    have hlp : 0 < arr.length := by omega
    calc i * arr.length < rem * arr.length := by
          exact Nat.mul_lt_mul_of_lt_of_le hi (Nat.le_refl _) hlp
      _ = arr.length * rem := Nat.mul_comm _ _
  rw [← heq]
  rw [List.getD_eq_getElem?_getD, List.getElem?_eq_getElem hidx]
  exact List.getElem_mem hidx

theorem mem_binFor {feats : List Road} {key : String} {f : Road}
    (h : f ∈ binFor feats key) : roadKey f = key ∧ f ∈ feats := by
  simp only [binFor, List.mem_filter, beq_iff_eq] at h
  exact ⟨h.2, h.1⟩

theorem binsTaken_subset {feats : List Road} {keys : List String} {k : Nat} :
    ∀ f ∈ binsTaken feats keys k, f ∈ feats := by
  intro f hf
  simp only [binsTaken, List.mem_flatten, List.mem_map] at hf
  obtain ⟨l, ⟨key, _hkey, rfl⟩, hfl⟩ := hf
  exact (mem_binFor hfl).2

theorem binsTaken_succ (feats : List Road) (k0 : String) (ks : List String) (k : Nat) :
    binsTaken feats (k0 :: ks) (k + 1) = binFor feats k0 ++ binsTaken feats ks k := by
  simp [binsTaken, List.take_succ_cons]

theorem fillBins_char (feats : List Road) :
    ∀ (keys : List String) (rem : Nat),
      rem ≤ ((keys.map (binFor feats)).map List.length).sum →
      ∃ k, k ≤ keys.length ∧
        ((fillBins feats keys rem = binsTaken feats keys k ∧
          (binsTaken feats keys k).length = rem)
         ∨ (k < keys.length ∧
            (binsTaken feats keys k).length < rem ∧
            rem - (binsTaken feats keys k).length <
              (binFor feats (keys.getD k "")).length ∧
            fillBins feats keys rem =
              binsTaken feats keys k ++
                evenSample (binFor feats (keys.getD k ""))
                  (rem - (binsTaken feats keys k).length))) := by
  intro keys
  induction keys with
  | nil =>
    intro rem hrem
    simp only [List.map_nil, List.sum_nil, Nat.le_zero] at hrem
    exact ⟨0, Nat.le_refl 0, Or.inl (by simp [fillBins, hrem, binsTaken])⟩
  | cons k0 ks ih =>
    intro rem hrem
    by_cases h0 : rem = 0
    · exact ⟨0, Nat.zero_le _, Or.inl (by simp [fillBins, h0, binsTaken])⟩
    · by_cases hfit : (binFor feats k0).length ≤ rem
      · have hrem2 : rem - (binFor feats k0).length ≤
            ((ks.map (binFor feats)).map List.length).sum := by
          simp only [List.map_cons, List.sum_cons] at hrem
          omega
        obtain ⟨k2, hk2, hcase⟩ := ih (rem - (binFor feats k0).length) hrem2
        refine ⟨k2 + 1, by simpa using hk2, ?_⟩
        have hfb : fillBins feats (k0 :: ks) rem =
            binFor feats k0 ++ fillBins feats ks (rem - (binFor feats k0).length) := by
          simp [fillBins, h0, hfit]
        rcases hcase with ⟨heq, hlen⟩ | ⟨hlt, hused, hover, heq⟩
        · left
          constructor
          · rw [hfb, heq, binsTaken_succ]
          · rw [binsTaken_succ, List.length_append, hlen]
            omega
        · right
          refine ⟨by simpa using hlt, ?_, ?_, ?_⟩
          · rw [binsTaken_succ, List.length_append]
            omega
          · rw [binsTaken_succ, List.length_append]
            simp only [List.getD_cons_succ]
            have : rem - (binFor feats k0).length -
                (binsTaken feats ks k2).length =
                rem - ((binFor feats k0).length + (binsTaken feats ks k2).length) := by
              omega
            rw [← this]
            exact hover
          · have hsub : rem - (binFor feats k0).length - (binsTaken feats ks k2).length =
                rem - ((binFor feats k0).length + (binsTaken feats ks k2).length) := by
              omega
            rw [hfb, heq, binsTaken_succ, List.append_assoc]
            simp only [List.getD_cons_succ, List.length_append]
            rw [← hsub]
      · refine ⟨0, Nat.zero_le _, Or.inr ⟨by simp, ?_, ?_, ?_⟩⟩
        · simp [binsTaken]
          omega
        · simp only [binsTaken, List.take_zero, List.map_nil, List.flatten_nil,
            List.length_nil, Nat.sub_zero, List.getD_cons_zero]
          omega
        · simp only [binsTaken, List.take_zero, List.map_nil, List.flatten_nil,
            List.nil_append, List.length_nil, Nat.sub_zero, List.getD_cons_zero]
          simp [fillBins, h0, hfit]



theorem roadKey_mem_allRoadKeys (f : Road) : roadKey f ∈ allRoadKeys := by
  rw [roadKey]
  split
  · next h =>
    exact List.mem_append_left _ (by simpa using h)
  · simp [allRoadKeys]

theorem allRoadKeys_nodup : allRoadKeys.Nodup := by decide

theorem binFor_cons (f : Road) (fs : List Road) (k : String) :
    binFor (f :: fs) k = if roadKey f == k then f :: binFor fs k else binFor fs k := by
  simp only [binFor, List.filter_cons]

theorem sum_binFor_cons (keys : List String) (f : Road) (fs : List Road) :
    ((keys.map (binFor (f :: fs))).map List.length).sum =
      ((keys.map (binFor fs)).map List.length).sum + keys.count (roadKey f) := by
  induction keys with
  | nil => simp
  | cons k0 ks ih =>
    simp only [List.map_cons, List.sum_cons, ih, List.count_cons, binFor_cons]
    by_cases h : roadKey f = k0
    · simp [h]
      omega
    · have h1 : (roadKey f == k0) = false := beq_eq_false_iff_ne.mpr h
      have h2 : (k0 == roadKey f) = false := beq_eq_false_iff_ne.mpr (fun e => h e.symm)
      simp [h1, h2]
      omega

theorem sum_binFor (feats : List Road) :
    ((allRoadKeys.map (binFor feats)).map List.length).sum = feats.length := by
  induction feats with
  | nil => rfl
  | cons f fs ih =>
    rw [sum_binFor_cons, ih,
      List.count_eq_one_of_mem allRoadKeys_nodup (roadKey_mem_allRoadKeys f)]
    simp



theorem allRoadKeys_getD_inj {m j : Nat} (hm : m < allRoadKeys.length)
    (hj : j < allRoadKeys.length)
    (h : allRoadKeys.getD m "" = allRoadKeys.getD j "") : m = j := by
  rw [List.getD_eq_getElem?_getD, List.getElem?_eq_getElem hm,
    List.getD_eq_getElem?_getD, List.getElem?_eq_getElem hj] at h
  simp only [Option.getD_some] at h
  exact (@List.Nodup.getElem_inj_iff _ allRoadKeys allRoadKeys_nodup m hm j hj).mp h

theorem mem_binsTaken {feats : List Road} {keys : List String} {k : Nat} {g : Road}
    (h : g ∈ binsTaken feats keys k) :
    ∃ m, m < k ∧ m < keys.length ∧ g ∈ binFor feats (keys.getD m "") := by
  simp only [binsTaken, List.mem_flatten, List.mem_map] at h
  obtain ⟨l, ⟨key, hkey, rfl⟩, hgl⟩ := h
  rw [List.mem_iff_getElem] at hkey
  obtain ⟨m, hm, hget⟩ := hkey
  have hmk : m < k := by
    have := List.length_take_le k keys
    simp only [List.length_take] at hm
    omega
  have hmlen : m < keys.length := by
    simp only [List.length_take] at hm
    omega
  refine ⟨m, hmk, hmlen, ?_⟩
  have hgd : keys.getD m "" = key := by
    rw [List.getD_eq_getElem?_getD, List.getElem?_eq_getElem hmlen]
    rw [← hget, List.getElem_take]
    rfl
  rw [hgd]
  exact hgl

theorem binFor_subset_binsTaken {feats : List Road} {keys : List String} {i k : Nat}
    (hik : i < k) (hilen : i < keys.length) :
    ∀ f ∈ binFor feats (keys.getD i ""), f ∈ binsTaken feats keys k := by
  intro f hf
  simp only [binsTaken, List.mem_flatten]
  refine ⟨binFor feats (keys.getD i ""), ?_, hf⟩
  simp only [List.mem_map]
  refine ⟨keys.getD i "", ?_, rfl⟩
  rw [List.mem_iff_getElem]
  have hlen : i < (keys.take k).length := by
    simp only [List.length_take]
    omega
  refine ⟨i, hlen, ?_⟩
  rw [List.getElem_take]
  rw [List.getD_eq_getElem?_getD, List.getElem?_eq_getElem hilen]
  rfl

/-- Claim C8: when the road feature count is within the cap, `limitRoads`
returns the input unchanged; otherwise it returns exactly `maxN` features all
drawn from the input, filled bin by bin in highway-priority order (the output
is a concatenation of whole priority bins, optionally followed by an even
stride sample of the single bin that overflows the remaining budget), and
whenever any feature of a lower-priority class appears in the output, every
feature of each higher-priority class is in the output. -/
theorem C8_limitRoads (feats : List Road) (maxN : Nat) :
    (feats.length ≤ maxN → limitRoads feats maxN = feats) ∧
    (maxN < feats.length →
      (limitRoads feats maxN).length = maxN ∧
      (∀ f ∈ limitRoads feats maxN, f ∈ feats) ∧
      (∃ k, k ≤ allRoadKeys.length ∧
        ((limitRoads feats maxN = binsTaken feats allRoadKeys k ∧
          (binsTaken feats allRoadKeys k).length = maxN) ∨
         (k < allRoadKeys.length ∧
          (binsTaken feats allRoadKeys k).length < maxN ∧
          maxN - (binsTaken feats allRoadKeys k).length <
            (binFor feats (allRoadKeys.getD k "")).length ∧
          limitRoads feats maxN =
            binsTaken feats allRoadKeys k ++
              evenSample (binFor feats (allRoadKeys.getD k ""))
                (maxN - (binsTaken feats allRoadKeys k).length)))) ∧
      (∀ i j : Nat, i < j → j < allRoadKeys.length →
        (∃ g ∈ limitRoads feats maxN, roadKey g = allRoadKeys.getD j "") →
        ∀ f ∈ binFor feats (allRoadKeys.getD i ""), f ∈ limitRoads feats maxN)) := by
  constructor
  · intro h
    simp [limitRoads, h]
  · intro h
    have hlim : limitRoads feats maxN = fillBins feats allRoadKeys maxN := by
      rw [limitRoads, if_neg (by omega)]
    obtain ⟨k, hk, hcase⟩ := fillBins_char feats allRoadKeys maxN
      (by rw [sum_binFor]; omega)
    have hjk : ∀ j : Nat, j < allRoadKeys.length →
        (∃ g ∈ limitRoads feats maxN, roadKey g = allRoadKeys.getD j "") → j ≤ k := by
      intro j hj ⟨g, hg, hgkey⟩
      rw [hlim] at hg
      rcases hcase with ⟨heq, _⟩ | ⟨hklt, _, hover, heq⟩
      · rw [heq] at hg
        obtain ⟨m, hmk, hmlen, hgm⟩ := mem_binsTaken hg
        have : allRoadKeys.getD m "" = allRoadKeys.getD j "" := by
          rw [(mem_binFor hgm).1] at hgkey
          exact hgkey
        have := allRoadKeys_getD_inj hmlen hj this
        omega
      · rw [heq] at hg
        rcases List.mem_append.mp hg with hg2 | hg2
        · obtain ⟨m, hmk, hmlen, hgm⟩ := mem_binsTaken hg2
          have : allRoadKeys.getD m "" = allRoadKeys.getD j "" := by
            rw [(mem_binFor hgm).1] at hgkey
            exact hgkey
          have := allRoadKeys_getD_inj hmlen hj this
          omega
        · have hgarr := evenSample_subset hover g hg2
          have : allRoadKeys.getD k "" = allRoadKeys.getD j "" := by
            rw [(mem_binFor hgarr).1] at hgkey
            exact hgkey
          have := allRoadKeys_getD_inj hklt hj this
          omega
    refine ⟨?_, ?_, ⟨k, hk, by rw [hlim]; exact hcase⟩, ?_⟩
    · rcases hcase with ⟨heq, hlen⟩ | ⟨hklt, hused, hover, heq⟩
      · rw [hlim, heq]
        exact hlen
      · rw [hlim, heq, List.length_append, evenSample_length]
        omega
    · intro f hf
      rw [hlim] at hf
      rcases hcase with ⟨heq, _⟩ | ⟨hklt, _, hover, heq⟩
      · rw [heq] at hf
        exact binsTaken_subset f hf
      · rw [heq] at hf
        rcases List.mem_append.mp hf with hf2 | hf2
        · exact binsTaken_subset f hf2
        · exact (mem_binFor (evenSample_subset hover f hf2)).2
    · intro i j hij hj hex f hf
      have hjle := hjk j hj hex
      have hik : i < k := by omega
      have hilen : i < allRoadKeys.length := by omega
      have hmem := binFor_subset_binsTaken hik hilen f hf
      rw [hlim]
      rcases hcase with ⟨heq, _⟩ | ⟨hklt, _, _, heq⟩
      · rw [heq]
        exact hmem
      · rw [heq]
        exact List.mem_append_left _ hmem

/-- Witness for C8: a list within the cap is unchanged, and an overflowing
list is cut to exactly the cap. -/
theorem C8_witness :
    limitRoads [⟨"residential", 0⟩, ⟨"motorway", 1⟩, ⟨"motorway", 2⟩] 10 =
      [⟨"residential", 0⟩, ⟨"motorway", 1⟩, ⟨"motorway", 2⟩] ∧
    (limitRoads [⟨"residential", 0⟩, ⟨"Motorway", 1⟩, ⟨"motorway", 2⟩, ⟨"xyz", 3⟩,
        ⟨"trunk", 4⟩, ⟨"residential", 5⟩, ⟨"residential", 6⟩] 4).length = 4 :=
  ⟨(C8_limitRoads [⟨"residential", 0⟩, ⟨"motorway", 1⟩, ⟨"motorway", 2⟩] 10).1 (by decide),
   ((C8_limitRoads [⟨"residential", 0⟩, ⟨"Motorway", 1⟩, ⟨"motorway", 2⟩, ⟨"xyz", 3⟩,
        ⟨"trunk", 4⟩, ⟨"residential", 5⟩, ⟨"residential", 6⟩] 4).2 (by decide)).1⟩

theorem eqStr_true {v : Js} {t : String} (h : v.eqStr t = true) : v = Js.str t := by
  cases v <;> simp only [Js.eqStr, Bool.false_eq_true] at h
  case str s =>
    rw [beq_iff_eq] at h
    rw [h]

theorem all_of_filterJs {p : Js → Bool} {l : List Js} :
    (l.filter p).all p = true :=
  List.all_eq_true.mpr (fun x hx => (List.mem_filter.mp hx).2)

theorem isPruned_point {fs : List (String × Js)}
    (h3 : ((Js.obj fs).get "type").eqStr "Point" = true)
    (h3a : coordValid ((Js.obj fs).get "coordinates") = true) :
    isPruned (Js.obj fs) = true := by
  rw [isPruned.eq_def]
  simp [h3, h3a]

theorem isPruned_mp {pts : List Js} (hlen : pts.length ≠ 0) (hall : pts.all coordValid = true) :
    isPruned (Js.obj [("type", Js.str "MultiPoint"), ("coordinates", Js.arr pts)]) = true := by
  rw [isPruned]
  simp [Js.get, Js.eqStr, List.lookup, hlen, hall]

theorem isPruned_ls {pts : List Js} (hlen : 2 ≤ pts.length) (hall : pts.all coordValid = true) :
    isPruned (Js.obj [("type", Js.str "LineString"), ("coordinates", Js.arr pts)]) = true := by
  rw [isPruned]
  simp [Js.get, Js.eqStr, List.lookup, lineOK, hlen, hall]

theorem isPruned_mls {ls : List Js} (hlen : ls.length ≠ 0) (hall : ls.all (lineOK 2) = true) :
    isPruned (Js.obj [("type", Js.str "MultiLineString"), ("coordinates", Js.arr ls)]) = true := by
  rw [isPruned]
  simp [Js.get, Js.eqStr, List.lookup, hlen, hall]

theorem isPruned_poly {rs : List Js} (hlen : rs.length ≠ 0) (hall : rs.all (lineOK 4) = true) :
    isPruned (Js.obj [("type", Js.str "Polygon"), ("coordinates", Js.arr rs)]) = true := by
  rw [isPruned]
  simp [Js.get, Js.eqStr, List.lookup, ringsOK, hlen, hall]

theorem isPruned_mpoly {ps : List Js} (hlen : ps.length ≠ 0) (hall : ps.all ringsOK = true) :
    isPruned (Js.obj [("type", Js.str "MultiPolygon"), ("coordinates", Js.arr ps)]) = true := by
  rw [isPruned]
  simp [Js.get, Js.eqStr, List.lookup, hlen, hall]

theorem isPruned_gc {gs : List Js} (hlen : gs.length ≠ 0)
    (hall : ∀ x ∈ gs, isPruned x = true) :
    isPruned (Js.obj [("type", Js.str "GeometryCollection"), ("geometries", Js.arr gs)]) = true := by
  rw [isPruned.eq_def]
  simp [Js.get, Js.eqStr, List.lookup, hlen]
  exact hall

theorem isPruned_isTruthy {g : Js} (h : isPruned g = true) : g.isTruthy = true := by
  cases g
  case obj fs => rfl
  all_goals simp [isPruned.eq_def] at h



set_option maxHeartbeats 1000000 in
theorem prune_isPruned (g : Js) :
    pruneGeometry g = Js.null ∨ isPruned (pruneGeometry g) = true := by
  cases g
  case obj fs =>
    rw [pruneGeometry]
    simp only [Js.isTruthy, Bool.not_true, Bool.false_eq_true, if_false, ite_false]
    split_ifs with h2 h3 h3a h4 h4a h5 h5a h6 h6a h7 h7a h8 h8a h9 h9a
    all_goals try (left; rfl)
    · right
      exact isPruned_point h3 h3a
    · right
      exact isPruned_mp h4a all_of_filterJs
    · right
      exact isPruned_ls h5a all_of_filterJs
    · right
      refine isPruned_mls (by simpa using h6a) (List.all_eq_true.mpr ?_)
      intro x hx
      rw [List.mem_map] at hx
      obtain ⟨m, hm, rfl⟩ := hx
      rw [List.mem_filter] at hm
      obtain ⟨hm1, hm2⟩ := hm
      rw [List.mem_map] at hm1
      obtain ⟨y, _hy, rfl⟩ := hm1
      simp only [lineOK, Bool.and_eq_true, decide_eq_true_eq]
      exact ⟨by simpa using hm2, all_of_filterJs⟩
    · right
      refine isPruned_poly (by simpa using h7a) (List.all_eq_true.mpr ?_)
      intro x hx
      rw [List.mem_map] at hx
      obtain ⟨m, hm, rfl⟩ := hx
      rw [List.mem_filter] at hm
      obtain ⟨hm1, hm2⟩ := hm
      rw [List.mem_map] at hm1
      obtain ⟨y, _hy, rfl⟩ := hm1
      simp only [lineOK, Bool.and_eq_true, decide_eq_true_eq]
      exact ⟨by simpa using hm2, all_of_filterJs⟩
    · right
      refine isPruned_mpoly (by simpa using h8a) (List.all_eq_true.mpr ?_)
      intro x hx
      rw [List.mem_map] at hx
      obtain ⟨poly, hpoly, rfl⟩ := hx
      rw [List.mem_filter] at hpoly
      obtain ⟨hp1, hp2⟩ := hpoly
      rw [List.mem_map] at hp1
      obtain ⟨y, _hy, rfl⟩ := hp1
      simp only [ringsOK, Bool.and_eq_true, decide_eq_true_eq]
      refine ⟨by simpa using hp2, List.all_eq_true.mpr ?_⟩
      intro r hr
      rw [List.mem_map] at hr
      obtain ⟨m, hm, rfl⟩ := hr
      rw [List.mem_filter] at hm
      obtain ⟨hm1, hm2⟩ := hm
      rw [List.mem_map] at hm1
      obtain ⟨z, _hz, rfl⟩ := hm1
      simp only [lineOK, Bool.and_eq_true, decide_eq_true_eq]
      exact ⟨by simpa using hm2, all_of_filterJs⟩
    · right
      refine isPruned_gc h9a ?_
      intro x hx
      rw [List.mem_filter] at hx
      obtain ⟨hx1, hx2⟩ := hx
      rw [List.mem_map] at hx1
      obtain ⟨y, _hy, hyeq⟩ := hx1
      rcases prune_isPruned y.val with hnull | hp
      · rw [hyeq] at hnull
        rw [hnull] at hx2
        simp [Js.isTruthy] at hx2
      · rw [hyeq] at hp
        exact hp
  all_goals
    left
    rw [pruneGeometry]
    simp [Js.isTruthy, Js.get]
termination_by sizeOf g
decreasing_by
  exact Js.sizeOf_get_asArr_lt y.property



theorem lineOK_dest {n : Nat} {l : Js} (h : lineOK n l = true) :
    l.asArr.filter coordValid = l.asArr ∧ n ≤ l.asArr.length ∧ Js.arr l.asArr = l := by
  cases l <;> simp only [lineOK, Bool.false_eq_true] at h
  case arr pts =>
    simp only [Bool.and_eq_true, decide_eq_true_eq] at h
    refine ⟨List.filter_eq_self.mpr (fun x hx => List.all_eq_true.mp h.2 x hx), by simpa using h.1, rfl⟩

theorem asArr_arr (l : List Js) : (Js.arr l).asArr = l := rfl

theorem ringsOK_dest {p : Js} (h : ringsOK p = true) :
    (p.asArr.map (fun r => r.asArr.filter coordValid)).filter
        (fun r => decide (4 ≤ r.length)) = p.asArr.map Js.asArr ∧
    (p.asArr.map Js.asArr).map Js.arr = p.asArr ∧
    p.asArr.length ≠ 0 ∧ Js.arr p.asArr = p := by
  cases p <;> simp only [ringsOK, Bool.false_eq_true] at h
  case arr rs =>
    simp only [Bool.and_eq_true, decide_eq_true_eq] at h
    obtain ⟨hlen, hall⟩ := h
    rw [List.all_eq_true] at hall
    rw [asArr_arr]
    refine ⟨?_, ?_, by simpa using hlen, rfl⟩
    · rw [List.map_congr_left (fun r hr => (lineOK_dest (hall r hr)).1)]
      apply List.filter_eq_self.mpr
      intro a ha
      rw [List.mem_map] at ha
      obtain ⟨r, hr, rfl⟩ := ha
      simpa using (lineOK_dest (hall r hr)).2.1
    · rw [List.map_map]
      calc List.map (Js.arr ∘ Js.asArr) rs = List.map id rs :=
            List.map_congr_left (fun r hr => (lineOK_dest (hall r hr)).2.2)
        _ = rs := List.map_id rs

theorem prune_mp_unfold (c : Js) :
    pruneGeometry (Js.obj [("type", Js.str "MultiPoint"), ("coordinates", c)]) =
      (if (c.asArr.filter coordValid).length ≠ 0 then
        Js.obj [("type", Js.str "MultiPoint"), ("coordinates", Js.arr (c.asArr.filter coordValid))]
      else Js.null) := by
  rw [pruneGeometry]
  rfl

theorem prune_ls_unfold (c : Js) :
    pruneGeometry (Js.obj [("type", Js.str "LineString"), ("coordinates", c)]) =
      (if 2 ≤ (c.asArr.filter coordValid).length then
        Js.obj [("type", Js.str "LineString"), ("coordinates", Js.arr (c.asArr.filter coordValid))]
      else Js.null) := by
  rw [pruneGeometry]
  rfl

theorem prune_mls_unfold (c : Js) :
    pruneGeometry (Js.obj [("type", Js.str "MultiLineString"), ("coordinates", c)]) =
      (if ((c.asArr.map (fun ls => ls.asArr.filter coordValid)).filter
          (fun ls => decide (2 ≤ ls.length))).length ≠ 0 then
        Js.obj [("type", Js.str "MultiLineString"),
          ("coordinates", Js.arr (((c.asArr.map (fun ls => ls.asArr.filter coordValid)).filter
            (fun ls => decide (2 ≤ ls.length))).map Js.arr))]
      else Js.null) := by
  rw [pruneGeometry]
  rfl

theorem prune_poly_unfold (c : Js) :
    pruneGeometry (Js.obj [("type", Js.str "Polygon"), ("coordinates", c)]) =
      (if ((c.asArr.map (fun ring => ring.asArr.filter coordValid)).filter
          (fun ring => decide (4 ≤ ring.length))).length ≠ 0 then
        Js.obj [("type", Js.str "Polygon"),
          ("coordinates", Js.arr (((c.asArr.map (fun ring => ring.asArr.filter coordValid)).filter
            (fun ring => decide (4 ≤ ring.length))).map Js.arr))]
      else Js.null) := by
  rw [pruneGeometry]
  rfl

theorem prune_mpoly_unfold (c : Js) :
    pruneGeometry (Js.obj [("type", Js.str "MultiPolygon"), ("coordinates", c)]) =
      (if ((c.asArr.map (fun poly => (poly.asArr.map (fun ring => ring.asArr.filter coordValid)).filter
            (fun ring => decide (4 ≤ ring.length)))).filter
          (fun poly => decide (poly.length ≠ 0))).length ≠ 0 then
        Js.obj [("type", Js.str "MultiPolygon"),
          ("coordinates", Js.arr (((c.asArr.map (fun poly =>
              (poly.asArr.map (fun ring => ring.asArr.filter coordValid)).filter
                (fun ring => decide (4 ≤ ring.length)))).filter
            (fun poly => decide (poly.length ≠ 0))).map (fun poly => Js.arr (poly.map Js.arr))))]
      else Js.null) := by
  rw [pruneGeometry]
  rfl

theorem prune_gc_unfold (c : Js) :
    pruneGeometry (Js.obj [("type", Js.str "GeometryCollection"), ("geometries", c)]) =
      (if ((c.asArr.attach.map (fun x => pruneGeometry x.val)).filter Js.isTruthy).length ≠ 0 then
        Js.obj [("type", Js.str "GeometryCollection"),
          ("geometries", Js.arr ((c.asArr.attach.map (fun x => pruneGeometry x.val)).filter Js.isTruthy))]
      else Js.null) := by
  rw [pruneGeometry]
  rfl

theorem prune_mp_eq {pts : List Js} (hlen : pts.length ≠ 0) (hall : pts.all coordValid = true) :
    pruneGeometry (Js.obj [("type", Js.str "MultiPoint"), ("coordinates", Js.arr pts)]) =
      Js.obj [("type", Js.str "MultiPoint"), ("coordinates", Js.arr pts)] := by
  rw [prune_mp_unfold, asArr_arr,
    List.filter_eq_self.mpr (fun x hx => List.all_eq_true.mp hall x hx), if_pos hlen]

theorem prune_ls_eq {pts : List Js} (hlen : 2 ≤ pts.length) (hall : pts.all coordValid = true) :
    pruneGeometry (Js.obj [("type", Js.str "LineString"), ("coordinates", Js.arr pts)]) =
      Js.obj [("type", Js.str "LineString"), ("coordinates", Js.arr pts)] := by
  rw [prune_ls_unfold, asArr_arr,
    List.filter_eq_self.mpr (fun x hx => List.all_eq_true.mp hall x hx), if_pos hlen]

theorem prune_mls_eq {ls : List Js} (hlen : ls.length ≠ 0) (hall : ls.all (lineOK 2) = true) :
    pruneGeometry (Js.obj [("type", Js.str "MultiLineString"), ("coordinates", Js.arr ls)]) =
      Js.obj [("type", Js.str "MultiLineString"), ("coordinates", Js.arr ls)] := by
  rw [List.all_eq_true] at hall
  have h1 : (ls.map (fun l => l.asArr.filter coordValid)).filter
      (fun l => decide (2 ≤ l.length)) = ls.map Js.asArr := by
    rw [List.map_congr_left (fun l hl => (lineOK_dest (hall l hl)).1)]
    apply List.filter_eq_self.mpr
    intro a ha
    rw [List.mem_map] at ha
    obtain ⟨l, hl, rfl⟩ := ha
    simpa using (lineOK_dest (hall l hl)).2.1
  have h2 : (ls.map Js.asArr).map Js.arr = ls := by
    rw [List.map_map]
    calc List.map (Js.arr ∘ Js.asArr) ls = List.map id ls :=
          List.map_congr_left (fun l hl => (lineOK_dest (hall l hl)).2.2)
      _ = ls := List.map_id ls
  rw [prune_mls_unfold, asArr_arr, h1, h2, if_pos (by simpa using hlen)]

theorem prune_poly_eq {rs : List Js} (hlen : rs.length ≠ 0) (hall : rs.all (lineOK 4) = true) :
    pruneGeometry (Js.obj [("type", Js.str "Polygon"), ("coordinates", Js.arr rs)]) =
      Js.obj [("type", Js.str "Polygon"), ("coordinates", Js.arr rs)] := by
  rw [List.all_eq_true] at hall
  have h1 : (rs.map (fun r => r.asArr.filter coordValid)).filter
      (fun r => decide (4 ≤ r.length)) = rs.map Js.asArr := by
    rw [List.map_congr_left (fun r hr => (lineOK_dest (hall r hr)).1)]
    apply List.filter_eq_self.mpr
    intro a ha
    rw [List.mem_map] at ha
    obtain ⟨r, hr, rfl⟩ := ha
    simpa using (lineOK_dest (hall r hr)).2.1
  have h2 : (rs.map Js.asArr).map Js.arr = rs := by
    rw [List.map_map]
    calc List.map (Js.arr ∘ Js.asArr) rs = List.map id rs :=
          List.map_congr_left (fun r hr => (lineOK_dest (hall r hr)).2.2)
      _ = rs := List.map_id rs
  rw [prune_poly_unfold, asArr_arr, h1, h2, if_pos (by simpa using hlen)]

theorem prune_mpoly_eq {ps : List Js} (hlen : ps.length ≠ 0) (hall : ps.all ringsOK = true) :
    pruneGeometry (Js.obj [("type", Js.str "MultiPolygon"), ("coordinates", Js.arr ps)]) =
      Js.obj [("type", Js.str "MultiPolygon"), ("coordinates", Js.arr ps)] := by
  rw [List.all_eq_true] at hall
  have h1 : (ps.map (fun poly => (poly.asArr.map (fun ring => ring.asArr.filter coordValid)).filter
      (fun ring => decide (4 ≤ ring.length)))).filter (fun poly => decide (poly.length ≠ 0)) =
      ps.map (fun poly => poly.asArr.map Js.asArr) := by
    rw [List.map_congr_left (fun p hp => (ringsOK_dest (hall p hp)).1)]
    apply List.filter_eq_self.mpr
    intro a ha
    rw [List.mem_map] at ha
    obtain ⟨p, hp, rfl⟩ := ha
    simpa using (ringsOK_dest (hall p hp)).2.2.1
  have h2 : (ps.map (fun poly => poly.asArr.map Js.asArr)).map
      (fun poly => Js.arr (poly.map Js.arr)) = ps := by
    rw [List.map_map]
    calc List.map ((fun poly => Js.arr (poly.map Js.arr)) ∘
          (fun poly => poly.asArr.map Js.asArr)) ps = List.map id ps := by
          apply List.map_congr_left
          intro p hp
          show Js.arr ((p.asArr.map Js.asArr).map Js.arr) = p
          rw [(ringsOK_dest (hall p hp)).2.1]
          exact (ringsOK_dest (hall p hp)).2.2.2
      _ = ps := List.map_id ps
  rw [prune_mpoly_unfold, asArr_arr, h1, h2, if_pos (by simpa using hlen)]



theorem sizeOf_gc_member {x : Js} {gs : List Js} (hx : x ∈ gs) :
    sizeOf x < sizeOf (Js.obj [("type", Js.str "GeometryCollection"),
      ("geometries", Js.arr gs)]) := by
  have := List.sizeOf_lt_of_mem hx
  simp only [Js.obj.sizeOf_spec, Js.arr.sizeOf_spec, Js.str.sizeOf_spec,
    List.cons.sizeOf_spec, List.nil.sizeOf_spec, Prod.mk.sizeOf_spec]
  omega

theorem isPruned_obj_eq (fs : List (String × Js)) :
    isPruned (Js.obj fs) =
      (if ((Js.obj fs).get "type").eqStr "Point" = true then
        coordValid ((Js.obj fs).get "coordinates")
      else
        match fs with
        | [("type", Js.str t), ("coordinates", c)] =>
          if t = "MultiPoint" then
            match c with
            | Js.arr pts => decide (pts.length ≠ 0) && pts.all coordValid
            | _ => false
          else if t = "LineString" then lineOK 2 c
          else if t = "MultiLineString" then
            match c with
            | Js.arr ls => decide (ls.length ≠ 0) && ls.all (lineOK 2)
            | _ => false
          else if t = "Polygon" then ringsOK c
          else if t = "MultiPolygon" then
            match c with
            | Js.arr ps => decide (ps.length ≠ 0) && ps.all ringsOK
            | _ => false
          else false
        | [("type", Js.str "GeometryCollection"), ("geometries", Js.arr gs)] =>
          decide (gs.length ≠ 0) && gs.attach.all (fun x => isPruned x.val)
        | _ => false) := by
  rw [isPruned.eq_def]

set_option maxHeartbeats 1000000 in
theorem prune_of_isPruned (g : Js) (h : isPruned g = true) : pruneGeometry g = g := by
  cases g
  case obj fs =>
    rw [isPruned_obj_eq] at h
    by_cases hP : ((Js.obj fs).get "type").eqStr "Point" = true
    · rw [if_pos hP] at h
      have ht := eqStr_true hP
      rw [pruneGeometry]
      simp [Js.isTruthy, ht, Js.eqStr, h]
    · rw [if_neg hP] at h
      split at h
      · rename_i t c
        split_ifs at h with hMP hLS hMLS hPoly hMPoly
        · subst hMP
          cases c <;> try simp only [Bool.false_eq_true] at h
          next pts =>
            simp only [Bool.and_eq_true, decide_eq_true_eq] at h
            exact prune_mp_eq h.1 h.2
        · subst hLS
          cases c <;> try simp only [lineOK, Bool.false_eq_true] at h
          next pts =>
            simp only [Bool.and_eq_true, decide_eq_true_eq] at h
            exact prune_ls_eq h.1 h.2
        · subst hMLS
          cases c <;> try simp only [Bool.false_eq_true] at h
          next ls =>
            simp only [Bool.and_eq_true, decide_eq_true_eq] at h
            exact prune_mls_eq h.1 h.2
        · subst hPoly
          cases c <;> try simp only [ringsOK, Bool.false_eq_true] at h
          next rs =>
            simp only [Bool.and_eq_true, decide_eq_true_eq] at h
            exact prune_poly_eq h.1 h.2
        · subst hMPoly
          cases c <;> try simp only [Bool.false_eq_true] at h
          next ps =>
            simp only [Bool.and_eq_true, decide_eq_true_eq] at h
            exact prune_mpoly_eq h.1 h.2
      · rename_i gs
        simp only [Bool.and_eq_true, decide_eq_true_eq] at h
        obtain ⟨hlen, hall⟩ := h
        rw [List.all_eq_true] at hall
        rw [prune_gc_unfold, asArr_arr]
        have hmap : gs.attach.map (fun x => pruneGeometry x.val) =
            gs.attach.map (fun x => x.val) := by
          apply List.map_congr_left
          intro y _hy
          exact prune_of_isPruned y.val (hall y (List.mem_attach gs y))
        rw [hmap, List.attach_map_subtype_val]
        rw [List.filter_eq_self.mpr
          (fun x hx => isPruned_isTruthy (hall ⟨x, hx⟩ (List.mem_attach gs ⟨x, hx⟩)))]
        rw [if_pos hlen]
      · simp at h
  all_goals simp [isPruned.eq_def] at h
termination_by sizeOf g
decreasing_by
  subst_vars
  exact sizeOf_gc_member y.property



theorem prune_null : pruneGeometry Js.null = Js.null := by
  rw [pruneGeometry]
  rfl

theorem prune_idem (g : Js) : pruneGeometry (pruneGeometry g) = pruneGeometry g := by
  rcases prune_isPruned g with h | h
  · rw [h, prune_null]
  · exact prune_of_isPruned _ h

set_option maxHeartbeats 1000000 in
theorem isPruned_prunedWF (g : Js) (h : isPruned g = true) : prunedWF g = true := by
  cases g
  case obj fs =>
    rw [isPruned_obj_eq] at h
    by_cases hP : ((Js.obj fs).get "type").eqStr "Point" = true
    · rw [if_pos hP] at h
      rw [prunedWF.eq_def]
      simp [hP, h]
    · rw [if_neg hP] at h
      split at h
      · rename_i t c
        split_ifs at h with hMP hLS hMLS hPoly hMPoly
        · subst hMP
          rw [prunedWF.eq_def]
          simp [Js.get, Js.eqStr, List.lookup]
          cases c <;> simp only [Bool.false_eq_true] at h ⊢
          next pts => simpa using h
        · subst hLS
          rw [prunedWF.eq_def]
          simp [Js.get, Js.eqStr, List.lookup]
          exact h
        · subst hMLS
          rw [prunedWF.eq_def]
          simp [Js.get, Js.eqStr, List.lookup]
          cases c <;> simp only [Bool.false_eq_true] at h ⊢
          next ls => simpa using h
        · subst hPoly
          rw [prunedWF.eq_def]
          simp [Js.get, Js.eqStr, List.lookup]
          exact h
        · subst hMPoly
          rw [prunedWF.eq_def]
          simp [Js.get, Js.eqStr, List.lookup]
          cases c <;> simp only [Bool.false_eq_true] at h ⊢
          next ps => simpa using h
      · rename_i gs
        simp only [Bool.and_eq_true, decide_eq_true_eq] at h
        obtain ⟨hlen, hall⟩ := h
        rw [List.all_eq_true] at hall
        rw [prunedWF.eq_def]
        simp [Js.get, Js.eqStr, List.lookup, hlen]
        intro a ha
        exact isPruned_prunedWF a (hall ⟨a, ha⟩ (List.mem_attach gs ⟨a, ha⟩))
      · simp at h
  all_goals simp [isPruned.eq_def] at h
termination_by sizeOf g
decreasing_by
  subst_vars
  exact sizeOf_gc_member ha

theorem isPruned_not_fc (g : Js) (h : isPruned g = true) :
    (g.get "type").eqStr "FeatureCollection" = false ∧
    (g.get "type").eqStr "Feature" = false := by
  cases g
  case obj fs =>
    rw [isPruned_obj_eq] at h
    by_cases hP : ((Js.obj fs).get "type").eqStr "Point" = true
    · rw [eqStr_true hP]
      exact ⟨rfl, rfl⟩
    · rw [if_neg hP] at h
      split at h
      · rename_i t c
        split_ifs at h with hMP hLS hMLS hPoly hMPoly
        · subst hMP
          exact ⟨rfl, rfl⟩
        · subst hLS
          exact ⟨rfl, rfl⟩
        · subst hMLS
          exact ⟨rfl, rfl⟩
        · subst hPoly
          exact ⟨rfl, rfl⟩
        · subst hMPoly
          exact ⟨rfl, rfl⟩
      · exact ⟨rfl, rfl⟩
      · simp at h
  all_goals simp [isPruned.eq_def] at h



theorem jsOr_truthy (a : Js) : (jsOr a (Js.obj [])).isTruthy = true := by
  rw [jsOr]
  split
  · next hc => exact hc
  · rfl

theorem sanitizeFeature_out (f : Js) :
    sanitizeFeature f = Js.null ∨
    ∃ g p, sanitizeFeature f =
        Js.obj [("type", Js.str "Feature"), ("geometry", g), ("properties", p)] ∧
      isPruned g = true ∧ p.isTruthy = true := by
  rw [sanitizeFeature]
  by_cases hg : (pruneGeometry (jsAnd f (f.get "geometry"))).isTruthy = true
  · right
    refine ⟨pruneGeometry (jsAnd f (f.get "geometry")),
      jsOr (jsAnd f (f.get "properties")) (Js.obj []), by simp [hg], ?_, jsOr_truthy _⟩
    rcases prune_isPruned (jsAnd f (f.get "geometry")) with hn | hp
    · rw [hn] at hg
      simp [Js.isTruthy] at hg
    · exact hp
  · left
    rw [Bool.not_eq_true] at hg
    simp [hg]

theorem sanitizeFeature_canonical {g p : Js} (hg : isPruned g = true)
    (hp : p.isTruthy = true) :
    sanitizeFeature (Js.obj [("type", Js.str "Feature"), ("geometry", g),
        ("properties", p)]) =
      Js.obj [("type", Js.str "Feature"), ("geometry", g), ("properties", p)] := by
  have hgt := isPruned_isTruthy hg
  have hpt := hp
  simp only [Js.isTruthy] at hgt hpt
  rw [sanitizeFeature]
  simp [jsAnd, jsOr, Js.get, List.lookup, Js.isTruthy,
    prune_of_isPruned g hg, hgt, hpt]

theorem featureWF_canonical {g p : Js} (hwf : prunedWF g = true) :
    featureWF (Js.obj [("type", Js.str "Feature"), ("geometry", g),
      ("properties", p)]) = true := by
  simp [featureWF, Js.get, Js.eqStr, List.lookup, hwf]

theorem sanitize_null : sanitizeGeoJSON Js.null = some Js.null := by
  rw [sanitizeGeoJSON]
  rfl



theorem sanitized_feats_fixed (fs : List Js) :
    ∀ x ∈ (fs.map sanitizeFeature).filter Js.isTruthy,
      sanitizeFeature x = x ∧ x.isTruthy = true ∧ featureWF x = true := by
  intro x hx
  rw [List.mem_filter] at hx
  obtain ⟨hx1, hx2⟩ := hx
  rw [List.mem_map] at hx1
  obtain ⟨f, _hf, rfl⟩ := hx1
  rcases sanitizeFeature_out f with hnull | ⟨g2, p2, heq, hg2, hp2⟩
  · rw [hnull] at hx2
    simp [Js.isTruthy] at hx2
  · rw [heq]
    exact ⟨sanitizeFeature_canonical hg2 hp2, heq ▸ hx2,
      featureWF_canonical (isPruned_prunedWF _ hg2)⟩

set_option maxHeartbeats 1000000 in
/-- Claim C4: `sanitizeGeoJSON` is idempotent: whenever it produces an output
(it throws only on a FeatureCollection whose `features` is truthy and not an
array), sanitizing that output returns it unchanged. -/
theorem C4_sanitize_idem (g r : Js) (h : sanitizeGeoJSON g = some r) :
    sanitizeGeoJSON r = some r := by
  rw [sanitizeGeoJSON] at h
  by_cases htr : g.isTruthy = true
  case neg =>
    rw [Bool.not_eq_true] at htr
    rw [if_pos (by simp [htr])] at h
    injection h with h
    subst h
    exact sanitize_null
  case pos =>
    rw [if_neg (by simp [htr])] at h
    by_cases hfc : (g.get "type").eqStr "FeatureCollection" = true
    · rw [if_pos hfc] at h
      split at h
      case _ fs heqf =>
        injection h with h
        subst h
        have hfix := sanitized_feats_fixed fs
        rw [sanitizeGeoJSON]
        rw [if_neg (by simp [Js.isTruthy])]
        rw [if_pos (by simp [Js.get, Js.eqStr, List.lookup])]
        have hsc : jsOr ((Js.obj [("type", Js.str "FeatureCollection"),
            ("features", Js.arr ((fs.map sanitizeFeature).filter Js.isTruthy))]).get "features")
            (Js.arr []) = Js.arr ((fs.map sanitizeFeature).filter Js.isTruthy) := rfl
        rw [hsc]
        have h1 : ((fs.map sanitizeFeature).filter Js.isTruthy).map sanitizeFeature =
            (fs.map sanitizeFeature).filter Js.isTruthy := by
          conv_rhs => rw [← List.map_id ((fs.map sanitizeFeature).filter Js.isTruthy)]
          exact List.map_congr_left (fun x hx => (hfix x hx).1)
        show some (Js.obj [("type", Js.str "FeatureCollection"),
            ("features", Js.arr ((((fs.map sanitizeFeature).filter Js.isTruthy).map
              sanitizeFeature).filter Js.isTruthy))]) =
          some (Js.obj [("type", Js.str "FeatureCollection"),
            ("features", Js.arr ((fs.map sanitizeFeature).filter Js.isTruthy))])
        rw [h1]
        rw [List.filter_eq_self.mpr (fun x hx => (hfix x hx).2.1)]
      case _ => exact absurd h (by simp)
    · rw [if_neg hfc] at h
      by_cases hfe : (g.get "type").eqStr "Feature" = true
      · rw [if_pos hfe] at h
        by_cases hgt : (pruneGeometry (g.get "geometry")).isTruthy = true
        · rw [if_pos hgt] at h
          injection h with h
          subst h
          have hip : isPruned (pruneGeometry (g.get "geometry")) = true := by
            rcases prune_isPruned (g.get "geometry") with hn | hp
            · rw [hn] at hgt
              simp [Js.isTruthy] at hgt
            · exact hp
          have hpt := jsOr_truthy (g.get "properties")
          have hgt2 := hgt
          simp only [Js.isTruthy] at hgt2 hpt
          rw [sanitizeGeoJSON]
          rw [if_neg (by simp [Js.isTruthy])]
          rw [if_neg (by simp [Js.get, Js.eqStr, List.lookup])]
          rw [if_pos (by simp [Js.get, Js.eqStr, List.lookup])]
          have hg3 : (Js.obj [("type", Js.str "Feature"),
              ("geometry", pruneGeometry (g.get "geometry")),
              ("properties", jsOr (g.get "properties") (Js.obj []))]).get "geometry" =
              pruneGeometry (g.get "geometry") := rfl
          rw [hg3, prune_of_isPruned _ hip]
          rw [if_pos hgt]
          have hp3 : (Js.obj [("type", Js.str "Feature"),
              ("geometry", pruneGeometry (g.get "geometry")),
              ("properties", jsOr (g.get "properties") (Js.obj []))]).get "properties" =
              jsOr (g.get "properties") (Js.obj []) := rfl
          rw [hp3]
          rw [jsOr, if_pos (jsOr_truthy (g.get "properties"))]
        · rw [if_neg hgt] at h
          injection h with h
          subst h
          exact sanitize_null
      · rw [if_neg hfe] at h
        injection h with h
        subst h
        by_cases hpt : (pruneGeometry g).isTruthy = true
        · rw [if_pos hpt]
          have hip : isPruned (pruneGeometry g) = true := by
            rcases prune_isPruned g with hn | hp
            · rw [hn] at hpt
              simp [Js.isTruthy] at hpt
            · exact hp
          rw [sanitizeGeoJSON]
          rw [if_neg (by simp [hpt])]
          rw [if_neg (by simp [(isPruned_not_fc _ hip).1])]
          rw [if_neg (by simp [(isPruned_not_fc _ hip).2])]
          rw [prune_of_isPruned _ hip]
          show some (if (pruneGeometry g).isTruthy = true then pruneGeometry g
            else Js.null) = some (pruneGeometry g)
          rw [if_pos hpt]
        · rw [if_neg hpt]
          exact sanitize_null



set_option maxHeartbeats 1000000 in
/-- Claim C3: every output of `sanitizeGeoJSON` is either `null` or
well-formed: all coordinate pairs finite, every line at least 2 points, every
ring at least 4 points, no pruned-empty sub-structure remains, and a
FeatureCollection keeps only surviving features (possibly none). -/
theorem C3_sanitize_wellformed (fc r : Js) (h : sanitizeGeoJSON fc = some r) :
    r = Js.null ∨ sanitizedWF r = true := by
  rw [sanitizeGeoJSON] at h
  by_cases htr : fc.isTruthy = true
  case neg =>
    rw [Bool.not_eq_true] at htr
    rw [if_pos (by simp [htr])] at h
    injection h with h
    exact Or.inl h.symm
  case pos =>
    rw [if_neg (by simp [htr])] at h
    by_cases hfc : (fc.get "type").eqStr "FeatureCollection" = true
    · rw [if_pos hfc] at h
      split at h
      case _ fs heqf =>
        injection h with h
        subst h
        right
        have hfix := sanitized_feats_fixed fs
        rw [sanitizedWF]
        rw [if_pos (by simp [Js.get, Js.eqStr, List.lookup])]
        have hget : (Js.obj [("type", Js.str "FeatureCollection"),
            ("features", Js.arr ((fs.map sanitizeFeature).filter Js.isTruthy))]).get
            "features" = Js.arr ((fs.map sanitizeFeature).filter Js.isTruthy) := rfl
        rw [hget]
        exact List.all_eq_true.mpr (fun x hx => (hfix x hx).2.2)
      case _ => exact absurd h (by simp)
    · rw [if_neg hfc] at h
      by_cases hfe : (fc.get "type").eqStr "Feature" = true
      · rw [if_pos hfe] at h
        by_cases hgt : (pruneGeometry (fc.get "geometry")).isTruthy = true
        · rw [if_pos hgt] at h
          injection h with h
          subst h
          right
          have hip : isPruned (pruneGeometry (fc.get "geometry")) = true := by
            rcases prune_isPruned (fc.get "geometry") with hn | hp
            · rw [hn] at hgt
              simp [Js.isTruthy] at hgt
            · exact hp
          rw [sanitizedWF]
          rw [if_neg (by simp [Js.get, Js.eqStr, List.lookup])]
          rw [if_pos (by simp [Js.get, Js.eqStr, List.lookup])]
          exact featureWF_canonical (isPruned_prunedWF _ hip)
        · rw [if_neg hgt] at h
          injection h with h
          exact Or.inl h.symm
      · rw [if_neg hfe] at h
        have h2 : some (if (pruneGeometry fc).isTruthy = true then pruneGeometry fc
            else Js.null) = some r := h
        injection h2 with h2
        by_cases hpt : (pruneGeometry fc).isTruthy = true
        · rw [if_pos hpt] at h2
          subst h2
          right
          have hip : isPruned (pruneGeometry fc) = true := by
            rcases prune_isPruned fc with hn | hp
            · rw [hn] at hpt
              simp [Js.isTruthy] at hpt
            · exact hp
          rw [sanitizedWF]
          rw [if_neg (by simp [(isPruned_not_fc _ hip).1])]
          rw [if_neg (by simp [(isPruned_not_fc _ hip).2, featureWF, Bool.and_eq_true])]
          exact isPruned_prunedWF _ hip
        · rw [if_neg hpt] at h2
          exact Or.inl h2.symm

theorem prune_sampleGeo : pruneGeometry sampleGeo = sampleSanitized := by
  rw [sampleGeo, pruneGeometry]
  rfl

theorem sanitize_sampleGeo : sanitizeGeoJSON sampleGeo = some sampleSanitized := by
  rw [sanitizeGeoJSON, prune_sampleGeo]
  rfl

/-- Witness for C3: sanitizing a LineString with one non-finite point yields a
well-formed (non-null) geometry. -/
theorem C3_witness :
    sampleSanitized = Js.null ∨ sanitizedWF sampleSanitized = true :=
  C3_sanitize_wellformed sampleGeo sampleSanitized sanitize_sampleGeo

/-- Witness for C4: re-sanitizing the sanitized sample geometry returns it
unchanged. -/
theorem C4_witness :
    sanitizeGeoJSON sampleSanitized = some sampleSanitized :=
  C4_sanitize_idem sampleGeo sampleSanitized sanitize_sampleGeo

end GeoLayers
